import Mathlib

/-
Formal model of the 2D spring-mass simulator in src/main.cpp.

The source works on Eigen Vector2f (single-precision floats); the model
idealizes scalars as real numbers, so every arithmetic identity below is
exact. Springs in the source hold raw pointers into the System's mass
vector; following the index-based reading of the same wiring, the model
stores the endpoint indices and resolves them through the mass list at
use time. Unchecked vector accesses (operator[] in the source, undefined
behavior when out of range) are modelled with List.getD and a designated
dummy element.
-/

noncomputable section

/- 2D vectors, Eigen Vector2f idealized over the reals. -/
abbrev Vec2 := ℝ × ℝ

/- Euclidean norm, Eigen .norm(). -/
def vnorm (v : Vec2) : ℝ := Real.sqrt (v.1 ^ 2 + v.2 ^ 2)

/- struct Mass (main.cpp lines 17-28): scalar mass, position, velocity,
accumulated force, fixed flag. -/
structure Mass where
  m : ℝ
  position : Vec2
  velocity : Vec2
  forcesApplied : Vec2
  isFixed : Bool

/- Mass(float x, float y, float m): free mass. The source leaves
forcesApplied uninitialized; it is overwritten by forcesZero before any
read, and the model picks 0 for it. -/
def Mass.free (x y m : ℝ) : Mass := ⟨m, (x, y), (0, 0), (0, 0), false⟩

/- Mass(float x, float y): fixed mass, scalar mass 0, isFixed true. -/
def Mass.fixed (x y : ℝ) : Mass := ⟨0, (x, y), (0, 0), (0, 0), true⟩

/- Stand-in element for unchecked out-of-range vector reads. -/
def dummyMass : Mass := ⟨0, (0, 0), (0, 0), (0, 0), true⟩

/- struct Spring (main.cpp lines 30-39): stiffness k, rest length l, and
the two endpoint masses. The source stores Mass* pointers that are null
until the System constructor wires them; the model stores indices into
the System's mass list, 0 until wired. -/
structure Spring where
  k : ℝ
  l : ℝ
  mass1 : ℕ
  mass2 : ℕ

def dummySpring : Spring := ⟨0, 0, 0, 0⟩

/- Spring::force (main.cpp lines 33-38): force on the spring as computed
by the source, directed along the normalized vector from mass1 to mass2
with magnitude k * (current length - rest length). -/
def Spring.force (s : Spring) (masses : List Mass) : Vec2 :=
  let x1 := (masses.getD s.mass1 dummyMass).position
  let x2 := (masses.getD s.mass2 dummyMass).position
  let direction := (1 / vnorm (x2 - x1)) • (x2 - x1)
  (s.k * (vnorm (x2 - x1) - s.l)) • direction

/- masses[i].forcesApplied += f, with the source's unchecked indexing:
out of range, the list is unchanged. -/
def addForceAt (i : ℕ) (f : Vec2) : List Mass → List Mass
  | [] => []
  | m :: rest =>
    match i with
    | 0 => { m with forcesApplied := m.forcesApplied + f } :: rest
    | Nat.succ j => m :: addForceAt j f rest

/- springs[i].mass1 = a; springs[i].mass2 = b, with unchecked indexing. -/
def wireAt (i : ℕ) (a b : ℕ) : List Spring → List Spring
  | [] => []
  | s :: rest =>
    match i with
    | 0 => { s with mass1 := a, mass2 := b } :: rest
    | Nat.succ j => s :: wireAt j a b rest

/- struct System (main.cpp lines 42-88). -/
structure System where
  masses : List Mass
  springs : List Spring

/- Connectivity: spring index to the pair of endpoint mass indices. The
source uses std::map and iterates its entries in ascending key order;
the model takes the iteration sequence as a list. -/
abbrev Connectivity := List (ℕ × (ℕ × ℕ))

/- System::System (main.cpp lines 46-56): takes ownership of both
collections and wires each spring named by connectivity. No index is
range-checked in the source. -/
def mkSystem (masses : List Mass) (springs : List Spring)
    (connectivity : Connectivity) : System :=
  ⟨masses, connectivity.foldl (fun ss c => wireAt c.1 c.2.1 c.2.2 ss) springs⟩

/- System::forcesZero (main.cpp lines 58-61). -/
def System.forcesZero (s : System) : System :=
  { s with masses := s.masses.map (fun m => { m with forcesApplied := (0, 0) }) }

/- One iteration of the loop body of System::updateForces (main.cpp
lines 64-67): mass1->forcesApplied += s.force(), then
mass2->forcesApplied -= s.force(). The source evaluates s.force() twice;
the second evaluation happens after the first update, which is mirrored
here (adding the negation models the -= operator). -/
def applySpring (masses : List Mass) (s : Spring) : List Mass :=
  let ms1 := addForceAt s.mass1 (s.force masses) masses
  addForceAt s.mass2 (-(s.force ms1)) ms1

/- System::updateForces (main.cpp lines 63-68): springs in order. -/
def System.updateForces (s : System) : System :=
  { s with masses := s.springs.foldl applySpring s.masses }

/- The per-mass body of System::applyForces (main.cpp lines 71-76). -/
def integrateMass (dt : ℝ) (m : Mass) : Mass :=
  if m.isFixed then m
  else
    let v := m.velocity + (dt / m.m) • m.forcesApplied
    { m with velocity := v, position := m.position + dt • v }

/- System::applyForces (main.cpp lines 70-77). -/
def System.applyForces (s : System) (dt : ℝ) : System :=
  { s with masses := s.masses.map (integrateMass dt) }

/- System::process (main.cpp lines 79-83): reset, accumulate, integrate. -/
def System.process (s : System) (dt : ℝ) : System :=
  (s.forcesZero.updateForces).applyForces dt

/- n composite steps. -/
def System.stepN (s : System) (dt : ℝ) : ℕ → System
  | 0 => s
  | Nat.succ n => (s.stepN dt n).process dt

/- operator<< on Mass (main.cpp lines 23-27), with the scalar-to-text
conversion of the output stream abstracted as a parameter. -/
def Mass.render (toText : ℝ → String) (m : Mass) : String :=
  toText m.position.1 ++ " " ++ toText m.position.2 ++ " " ++
    toText m.velocity.1 ++ " " ++ toText m.velocity.2 ++ "\n"

/- System::displayMass (main.cpp lines 85-87), unchecked masses[n]. -/
def System.displayMass (s : System) (toText : ℝ → String) (n : ℕ) : String :=
  (s.masses.getD n dummyMass).render toText

/- Total momentum: sum over the masses of m * velocity. -/
def totalMomentum (ms : List Mass) : Vec2 := (ms.map (fun m => m.m • m.velocity)).sum

/- Sum of the accumulated forces. -/
def totalForce (ms : List Mass) : Vec2 := (ms.map Mass.forcesApplied).sum

def System.momentum (s : System) : Vec2 := totalMomentum s.masses

/- The regression scenario of the first test (main.cpp lines 100-130):
a fixed mass at (0,0), a free mass of scalar mass 3 at (0,-3), one
spring with k = 3 and l = 2 connecting them. -/
def oneSpringSys : System :=
  mkSystem [Mass.fixed 0 0, Mass.free 0 (-3) 3] [⟨3, 2, 0, 0⟩] [(0, (0, 1))]

/- A closed system: two free masses joined by one spring. -/
def twoFreeSys : System :=
  mkSystem [Mass.free 0 0 1, Mass.free 0 (-3) 3] [⟨3, 2, 0, 0⟩] [(0, (0, 1))]

/- A fixed anchor at (1,0) and a free mass of scalar mass m at the
origin, one unit apart, joined by a spring with k = 1 and l = 0. -/
def anchoredSys (m : ℝ) : System :=
  mkSystem [Mass.fixed 1 0, Mass.free 0 0 m] [⟨1, 0, 0, 0⟩] [(0, (0, 1))]

/- Helper lemmas about force accumulation. -/

theorem addForceAt_length (i : ℕ) (f : Vec2) (ms : List Mass) :
    (addForceAt i f ms).length = ms.length := by
  induction ms generalizing i with
  | nil => simp [addForceAt]
  | cons m rest ih =>
    cases i with
    | zero => simp [addForceAt]
    | succ j => simpa [addForceAt] using ih j

theorem addForceAt_getD_proj (i : ℕ) (f : Vec2) (ms : List Mass) (j : ℕ) :
    ((addForceAt i f ms).getD j dummyMass).position = (ms.getD j dummyMass).position ∧
    ((addForceAt i f ms).getD j dummyMass).velocity = (ms.getD j dummyMass).velocity ∧
    ((addForceAt i f ms).getD j dummyMass).m = (ms.getD j dummyMass).m ∧
    ((addForceAt i f ms).getD j dummyMass).isFixed = (ms.getD j dummyMass).isFixed := by
  induction ms generalizing i j with
  | nil => simp [addForceAt]
  | cons m rest ih =>
    cases i with
    | zero =>
      cases j with
      | zero => simp [addForceAt]
      | succ j2 => simp [addForceAt]
    | succ i2 =>
      cases j with
      | zero => simp [addForceAt]
      | succ j2 => simpa [addForceAt] using ih i2 j2

theorem totalForce_addForceAt (i : ℕ) (f : Vec2) (ms : List Mass)
    (h : i < ms.length) :
    totalForce (addForceAt i f ms) = totalForce ms + f := by
  induction ms generalizing i with
  | nil => simp at h
  | cons m rest ih =>
    cases i with
    | zero =>
      simp only [addForceAt, totalForce, List.map_cons, List.sum_cons]
      abel
    | succ i2 =>
      have h2 : i2 < rest.length := by simpa using h
      simp only [addForceAt, totalForce, List.map_cons, List.sum_cons] at *
      rw [ih i2 h2]
      abel

theorem totalMomentum_addForceAt (i : ℕ) (f : Vec2) (ms : List Mass) :
    totalMomentum (addForceAt i f ms) = totalMomentum ms := by
  induction ms generalizing i with
  | nil => simp [addForceAt]
  | cons m rest ih =>
    cases i with
    | zero => simp [addForceAt, totalMomentum]
    | succ i2 =>
      simp only [addForceAt, totalMomentum, List.map_cons, List.sum_cons] at *
      rw [ih i2]

theorem Spring.force_congr (s : Spring) (ms1 ms2 : List Mass)
    (h : ∀ j, (ms1.getD j dummyMass).position = (ms2.getD j dummyMass).position) :
    s.force ms1 = s.force ms2 := by
  simp only [Spring.force]
  rw [h s.mass1, h s.mass2]

/- The second evaluation of s.force() inside the loop body sees the same
positions as the first one, hence returns the same vector. -/
theorem applySpring_force_eq (ms : List Mass) (s : Spring) :
    s.force (addForceAt s.mass1 (s.force ms) ms) = s.force ms :=
  Spring.force_congr s _ ms (fun j => (addForceAt_getD_proj s.mass1 (s.force ms) ms j).1)

theorem applySpring_eq (ms : List Mass) (s : Spring) :
    applySpring ms s =
      addForceAt s.mass2 (-(s.force ms)) (addForceAt s.mass1 (s.force ms) ms) := by
  simp only [applySpring]
  rw [applySpring_force_eq]

theorem applySpring_length (ms : List Mass) (s : Spring) :
    (applySpring ms s).length = ms.length := by
  rw [applySpring_eq, addForceAt_length, addForceAt_length]

theorem applySpring_getD_proj (ms : List Mass) (s : Spring) (j : ℕ) :
    ((applySpring ms s).getD j dummyMass).position = (ms.getD j dummyMass).position ∧
    ((applySpring ms s).getD j dummyMass).velocity = (ms.getD j dummyMass).velocity ∧
    ((applySpring ms s).getD j dummyMass).m = (ms.getD j dummyMass).m ∧
    ((applySpring ms s).getD j dummyMass).isFixed = (ms.getD j dummyMass).isFixed := by
  rw [applySpring_eq]
  obtain ⟨p1, v1, m1, f1⟩ := addForceAt_getD_proj s.mass1 (s.force ms) ms j
  obtain ⟨p2, v2, m2, f2⟩ :=
    addForceAt_getD_proj s.mass2 (-(s.force ms)) (addForceAt s.mass1 (s.force ms) ms) j
  exact ⟨p2.trans p1, v2.trans v1, m2.trans m1, f2.trans f1⟩

theorem totalForce_applySpring (ms : List Mass) (s : Spring)
    (h1 : s.mass1 < ms.length) (h2 : s.mass2 < ms.length) :
    totalForce (applySpring ms s) = totalForce ms := by
  rw [applySpring_eq,
    totalForce_addForceAt _ _ _ (by rwa [addForceAt_length]),
    totalForce_addForceAt _ _ _ h1]
  abel

theorem totalMomentum_applySpring (ms : List Mass) (s : Spring) :
    totalMomentum (applySpring ms s) = totalMomentum ms := by
  rw [applySpring_eq, totalMomentum_addForceAt, totalMomentum_addForceAt]

/- Lemmas about the spring loop of updateForces. -/

theorem foldl_applySpring_length (springs : List Spring) (ms : List Mass) :
    (springs.foldl applySpring ms).length = ms.length := by
  induction springs generalizing ms with
  | nil => rfl
  | cons s rest ih => rw [List.foldl_cons, ih, applySpring_length]

theorem foldl_applySpring_getD_proj (springs : List Spring) (ms : List Mass) (j : ℕ) :
    ((springs.foldl applySpring ms).getD j dummyMass).position
      = (ms.getD j dummyMass).position ∧
    ((springs.foldl applySpring ms).getD j dummyMass).velocity
      = (ms.getD j dummyMass).velocity ∧
    ((springs.foldl applySpring ms).getD j dummyMass).m = (ms.getD j dummyMass).m ∧
    ((springs.foldl applySpring ms).getD j dummyMass).isFixed
      = (ms.getD j dummyMass).isFixed := by
  induction springs generalizing ms with
  | nil => exact ⟨rfl, rfl, rfl, rfl⟩
  | cons s rest ih =>
    rw [List.foldl_cons]
    obtain ⟨p1, v1, m1, f1⟩ := applySpring_getD_proj ms s j
    obtain ⟨p2, v2, m2, f2⟩ := ih (applySpring ms s)
    exact ⟨p2.trans p1, v2.trans v1, m2.trans m1, f2.trans f1⟩

theorem totalForce_foldl_applySpring (springs : List Spring) (ms : List Mass)
    (h : ∀ s ∈ springs, s.mass1 < ms.length ∧ s.mass2 < ms.length) :
    totalForce (springs.foldl applySpring ms) = totalForce ms := by
  induction springs generalizing ms with
  | nil => rfl
  | cons s rest ih =>
    rw [List.foldl_cons]
    have hs := h s (List.mem_cons_self s rest)
    have hrest : ∀ s2 ∈ rest, s2.mass1 < (applySpring ms s).length ∧
        s2.mass2 < (applySpring ms s).length := by
      intro s2 hs2
      rw [applySpring_length]
      exact h s2 (List.mem_cons_of_mem s hs2)
    rw [ih (applySpring ms s) hrest, totalForce_applySpring ms s hs.1 hs.2]

theorem totalMomentum_foldl_applySpring (springs : List Spring) (ms : List Mass) :
    totalMomentum (springs.foldl applySpring ms) = totalMomentum ms := by
  induction springs generalizing ms with
  | nil => rfl
  | cons s rest ih => rw [List.foldl_cons, ih, totalMomentum_applySpring]

/- Lemmas about the two per-mass traversals (force reset, integration). -/

theorem getD_map_mass (g : Mass → Mass) (hg : g dummyMass = dummyMass)
    (ms : List Mass) (j : ℕ) :
    (ms.map g).getD j dummyMass = g (ms.getD j dummyMass) := by
  induction ms generalizing j with
  | nil => simpa using hg.symm
  | cons m rest ih =>
    cases j with
    | zero => rfl
    | succ j2 => simpa using ih j2

theorem forcesZero_masses_getD (sys : System) (j : ℕ) :
    sys.forcesZero.masses.getD j dummyMass =
      { sys.masses.getD j dummyMass with forcesApplied := (0, 0) } := by
  simp only [System.forcesZero]
  exact getD_map_mass (fun m => { m with forcesApplied := (0, 0) }) rfl sys.masses j

theorem totalForce_forcesZero (sys : System) :
    totalForce sys.forcesZero.masses = 0 := by
  simp only [System.forcesZero]
  induction sys.masses with
  | nil => rfl
  | cons m rest ih =>
    simp only [totalForce, List.map_cons, List.sum_cons] at *
    rw [ih, add_zero]
    rfl

theorem totalMomentum_forcesZero (sys : System) :
    totalMomentum sys.forcesZero.masses = totalMomentum sys.masses := by
  simp only [System.forcesZero]
  induction sys.masses with
  | nil => rfl
  | cons m rest ih =>
    simp only [totalMomentum, List.map_cons, List.sum_cons] at *
    rw [ih]

theorem integrateMass_m (dt : ℝ) (m : Mass) : (integrateMass dt m).m = m.m := by
  unfold integrateMass
  split <;> rfl

theorem integrateMass_isFixed (dt : ℝ) (m : Mass) :
    (integrateMass dt m).isFixed = m.isFixed := by
  unfold integrateMass
  split <;> rfl

theorem integrateMass_forcesApplied (dt : ℝ) (m : Mass) :
    (integrateMass dt m).forcesApplied = m.forcesApplied := by
  unfold integrateMass
  split <;> rfl

theorem integrateMass_fixed (dt : ℝ) (m : Mass) (h : m.isFixed = true) :
    integrateMass dt m = m := by
  simp [integrateMass, h]

theorem integrateMass_free_velocity (dt : ℝ) (m : Mass) (h : m.isFixed = false) :
    (integrateMass dt m).velocity = m.velocity + (dt / m.m) • m.forcesApplied := by
  simp [integrateMass, h]

theorem integrateMass_free_position (dt : ℝ) (m : Mass) (h : m.isFixed = false) :
    (integrateMass dt m).position =
      m.position + dt • (m.velocity + (dt / m.m) • m.forcesApplied) := by
  simp [integrateMass, h]

theorem integrateMass_dummy (dt : ℝ) : integrateMass dt dummyMass = dummyMass :=
  integrateMass_fixed dt dummyMass rfl

theorem applyForces_masses_getD (sys : System) (dt : ℝ) (j : ℕ) :
    (sys.applyForces dt).masses.getD j dummyMass =
      integrateMass dt (sys.masses.getD j dummyMass) := by
  simp only [System.applyForces]
  exact getD_map_mass (integrateMass dt) (integrateMass_dummy dt) sys.masses j

theorem totalMomentum_applyForces (dt : ℝ) (ms : List Mass)
    (hfree : ∀ m ∈ ms, m.isFixed = false) (hm : ∀ m ∈ ms, m.m ≠ 0) :
    totalMomentum (ms.map (integrateMass dt)) =
      totalMomentum ms + dt • totalForce ms := by
  induction ms with
  | nil => simp [totalMomentum, totalForce]
  | cons m rest ih =>
    have h1 : m.isFixed = false := hfree m (List.mem_cons_self m rest)
    have h2 : m.m ≠ 0 := hm m (List.mem_cons_self m rest)
    have hmom : (integrateMass dt m).m • (integrateMass dt m).velocity =
        m.m • m.velocity + dt • m.forcesApplied := by
      rw [integrateMass_m, integrateMass_free_velocity dt m h1, smul_add, smul_smul,
        ← mul_div_assoc, mul_div_cancel_left₀ dt h2]
    simp only [totalMomentum, totalForce, List.map_cons, List.sum_cons] at *
    rw [hmom, ih (fun x hx => hfree x (List.mem_cons_of_mem m hx))
      (fun x hx => hm x (List.mem_cons_of_mem m hx)), smul_add]
    abel

/- System-level composition of the stage lemmas. -/

theorem process_springs (sys : System) (dt : ℝ) :
    (sys.process dt).springs = sys.springs := rfl

theorem forcesZero_springs (sys : System) : sys.forcesZero.springs = sys.springs := rfl

theorem updateForces_springs (sys : System) :
    sys.updateForces.springs = sys.springs := rfl

theorem forcesZero_masses_length (sys : System) :
    sys.forcesZero.masses.length = sys.masses.length := by
  simp [System.forcesZero]

theorem updateForces_masses_length (sys : System) :
    sys.updateForces.masses.length = sys.masses.length := by
  simp only [System.updateForces]
  exact foldl_applySpring_length sys.springs sys.masses

theorem process_masses_length (sys : System) (dt : ℝ) :
    (sys.process dt).masses.length = sys.masses.length := by
  simp only [System.process, System.applyForces, List.length_map]
  rw [updateForces_masses_length, forcesZero_masses_length]

/- Projections of a mass after the accumulation stage (forcesZero then
updateForces): position, velocity, scalar mass and fixed flag are those
of the start of the step. -/
theorem accum_getD_proj (sys : System) (j : ℕ) :
    ((sys.forcesZero.updateForces).masses.getD j dummyMass).position
      = (sys.masses.getD j dummyMass).position ∧
    ((sys.forcesZero.updateForces).masses.getD j dummyMass).velocity
      = (sys.masses.getD j dummyMass).velocity ∧
    ((sys.forcesZero.updateForces).masses.getD j dummyMass).m
      = (sys.masses.getD j dummyMass).m ∧
    ((sys.forcesZero.updateForces).masses.getD j dummyMass).isFixed
      = (sys.masses.getD j dummyMass).isFixed := by
  have h1 := foldl_applySpring_getD_proj sys.forcesZero.springs sys.forcesZero.masses j
  simp only [System.updateForces]
  rw [forcesZero_masses_getD] at h1
  exact h1

theorem process_masses_getD (sys : System) (dt : ℝ) (j : ℕ) :
    (sys.process dt).masses.getD j dummyMass =
      integrateMass dt ((sys.forcesZero.updateForces).masses.getD j dummyMass) :=
  applyForces_masses_getD (sys.forcesZero.updateForces) dt j

theorem process_m_isFixed (sys : System) (dt : ℝ) (j : ℕ) :
    ((sys.process dt).masses.getD j dummyMass).m = (sys.masses.getD j dummyMass).m ∧
    ((sys.process dt).masses.getD j dummyMass).isFixed
      = (sys.masses.getD j dummyMass).isFixed := by
  rw [process_masses_getD, integrateMass_m, integrateMass_isFixed]
  exact ⟨(accum_getD_proj sys j).2.2.1, (accum_getD_proj sys j).2.2.2⟩

theorem process_fixed_posvel (sys : System) (dt : ℝ) (j : ℕ)
    (h : (sys.masses.getD j dummyMass).isFixed = true) :
    ((sys.process dt).masses.getD j dummyMass).position
      = (sys.masses.getD j dummyMass).position ∧
    ((sys.process dt).masses.getD j dummyMass).velocity
      = (sys.masses.getD j dummyMass).velocity := by
  obtain ⟨hp, hv, hmm, hf⟩ := accum_getD_proj sys j
  rw [process_masses_getD, integrateMass_fixed dt _ (hf.trans h)]
  exact ⟨hp, hv⟩

theorem stepN_m_isFixed (sys : System) (dt : ℝ) (n : ℕ) (j : ℕ) :
    ((sys.stepN dt n).masses.getD j dummyMass).m = (sys.masses.getD j dummyMass).m ∧
    ((sys.stepN dt n).masses.getD j dummyMass).isFixed
      = (sys.masses.getD j dummyMass).isFixed := by
  induction n with
  | zero => exact ⟨rfl, rfl⟩
  | succ n2 ih =>
    obtain ⟨hm, hf⟩ := process_m_isFixed (sys.stepN dt n2) dt j
    exact ⟨hm.trans ih.1, hf.trans ih.2⟩

theorem stepN_fixed_posvel (sys : System) (dt : ℝ) (n : ℕ) (j : ℕ)
    (h : (sys.masses.getD j dummyMass).isFixed = true) :
    ((sys.stepN dt n).masses.getD j dummyMass).position
      = (sys.masses.getD j dummyMass).position ∧
    ((sys.stepN dt n).masses.getD j dummyMass).velocity
      = (sys.masses.getD j dummyMass).velocity := by
  induction n with
  | zero => exact ⟨rfl, rfl⟩
  | succ n2 ih =>
    have hf : ((sys.stepN dt n2).masses.getD j dummyMass).isFixed = true :=
      (stepN_m_isFixed sys dt n2 j).2.trans h
    obtain ⟨hp, hv⟩ := process_fixed_posvel (sys.stepN dt n2) dt j hf
    exact ⟨hp.trans ih.1, hv.trans ih.2⟩

/- Pointwise characterization of a single force application. -/

theorem addForceAt_getD_self (i : ℕ) (f : Vec2) (ms : List Mass) (h : i < ms.length) :
    ((addForceAt i f ms).getD i dummyMass).forcesApplied
      = (ms.getD i dummyMass).forcesApplied + f := by
  induction ms generalizing i with
  | nil => simp at h
  | cons m rest ih =>
    cases i with
    | zero => simp [addForceAt]
    | succ i2 => simpa [addForceAt] using ih i2 (by simpa using h)

theorem addForceAt_getD_other (i j : ℕ) (f : Vec2) (ms : List Mass) (h : j ≠ i) :
    (addForceAt i f ms).getD j dummyMass = ms.getD j dummyMass := by
  induction ms generalizing i j with
  | nil => simp [addForceAt]
  | cons m rest ih =>
    cases i with
    | zero =>
      cases j with
      | zero => exact absurd rfl h
      | succ j2 => simp [addForceAt]
    | succ i2 =>
      cases j with
      | zero => simp [addForceAt]
      | succ j2 => simpa [addForceAt] using ih i2 j2 (fun hh => h (by rw [hh]))

/- Concrete evaluations on the regression scenario. -/

theorem sqrt_nine : Real.sqrt (9 : ℝ) = 3 := by
  rw [show (9 : ℝ) = 3 ^ 2 by norm_num]
  exact Real.sqrt_sq (by norm_num)

theorem oneSpring_force_eval :
    (oneSpringSys.springs.getD 0 dummySpring).force oneSpringSys.forcesZero.masses
      = (0, -3) := by
  simp only [oneSpringSys, mkSystem, wireAt, List.foldl_cons, List.foldl_nil,
    System.forcesZero, List.map_cons, List.map_nil, Spring.force, vnorm,
    Mass.free, Mass.fixed, List.getD_cons_zero, List.getD_cons_succ,
    Prod.mk_sub_mk, Prod.smul_mk, smul_eq_mul]
  norm_num [sqrt_nine]

theorem oneSpring_accum_mass0 :
    ((oneSpringSys.forcesZero.updateForces).masses.getD 0 dummyMass).forcesApplied
      = (0, -3) := by
  simp only [oneSpringSys, mkSystem, wireAt, List.foldl_cons, List.foldl_nil,
    System.forcesZero, System.updateForces, List.map_cons, List.map_nil,
    applySpring, Spring.force, addForceAt, vnorm, Mass.free, Mass.fixed,
    List.getD_cons_zero, List.getD_cons_succ, Prod.mk_sub_mk, Prod.smul_mk,
    Prod.mk_add_mk, Prod.neg_mk, smul_eq_mul]
  norm_num [sqrt_nine]

theorem oneSpring_accum_mass1 :
    ((oneSpringSys.forcesZero.updateForces).masses.getD 1 dummyMass).forcesApplied
      = (0, 3) := by
  simp only [oneSpringSys, mkSystem, wireAt, List.foldl_cons, List.foldl_nil,
    System.forcesZero, System.updateForces, List.map_cons, List.map_nil,
    applySpring, Spring.force, addForceAt, vnorm, Mass.free, Mass.fixed,
    List.getD_cons_zero, List.getD_cons_succ, Prod.mk_sub_mk, Prod.smul_mk,
    Prod.mk_add_mk, Prod.neg_mk, smul_eq_mul]
  norm_num [sqrt_nine]

theorem oneSpring_step_mass1_forces :
    ((oneSpringSys.process (1 / 10)).masses.getD 1 dummyMass).forcesApplied
      = (0, 3) := by
  simp only [oneSpringSys, mkSystem, wireAt, List.foldl_cons, List.foldl_nil,
    System.process, System.forcesZero, System.updateForces, System.applyForces,
    List.map_cons, List.map_nil, applySpring, Spring.force, addForceAt,
    integrateMass, vnorm, Mass.free, Mass.fixed, List.getD_cons_zero,
    List.getD_cons_succ, Prod.mk_sub_mk, Prod.smul_mk, Prod.mk_add_mk,
    Prod.neg_mk, smul_eq_mul]
  norm_num [sqrt_nine]

theorem oneSpring_step_mass1_velocity :
    ((oneSpringSys.process (1 / 10)).masses.getD 1 dummyMass).velocity
      = (0, 1 / 10) := by
  simp only [oneSpringSys, mkSystem, wireAt, List.foldl_cons, List.foldl_nil,
    System.process, System.forcesZero, System.updateForces, System.applyForces,
    List.map_cons, List.map_nil, applySpring, Spring.force, addForceAt,
    integrateMass, vnorm, Mass.free, Mass.fixed, List.getD_cons_zero,
    List.getD_cons_succ, Prod.mk_sub_mk, Prod.smul_mk, Prod.mk_add_mk,
    Prod.neg_mk, smul_eq_mul]
  norm_num [sqrt_nine]

theorem oneSpring_step_mass1_position :
    ((oneSpringSys.process (1 / 10)).masses.getD 1 dummyMass).position
      = (0, -299 / 100) := by
  simp only [oneSpringSys, mkSystem, wireAt, List.foldl_cons, List.foldl_nil,
    System.process, System.forcesZero, System.updateForces, System.applyForces,
    List.map_cons, List.map_nil, applySpring, Spring.force, addForceAt,
    integrateMass, vnorm, Mass.free, Mass.fixed, List.getD_cons_zero,
    List.getD_cons_succ, Prod.mk_sub_mk, Prod.smul_mk, Prod.mk_add_mk,
    Prod.neg_mk, smul_eq_mul]
  norm_num [sqrt_nine]

/-- C1 counterexample: in the regression scenario (fixed mass at (0,0), free
mass of scalar mass 3 at (0,-3), spring k = 3, l = 2, dt = 0.1), the spec's
predicted first-step values for the free mass — accumulated force (0,-3),
velocity (0,-3.1), position (0,-3.31) — do not hold: updateForces subtracts
the spring's force from the second endpoint, so the free mass is pulled
toward the anchor, not pushed away. -/
theorem oneSpring_first_step_spec_values_false :
    ¬ (((oneSpringSys.process (1 / 10)).masses.getD 1 dummyMass).forcesApplied
          = (0, -3) ∧
       ((oneSpringSys.process (1 / 10)).masses.getD 1 dummyMass).velocity
          = (0, -31 / 10) ∧
       ((oneSpringSys.process (1 / 10)).masses.getD 1 dummyMass).position
          = (0, -331 / 100)) := by
  intro h
  have h1 := h.1
  rw [oneSpring_step_mass1_forces] at h1
  rw [Prod.mk.injEq] at h1
  norm_num at h1

/-- C1 amended: in the regression scenario, after exactly one composite step
the force accumulated on the free mass equals (0, 3) (the spring force (0,-3)
computed along mass1-to-mass2 is subtracted from mass2), its velocity equals
(0, 0.1) and its position equals (0, -2.99). -/
theorem oneSpring_first_step :
    ((oneSpringSys.process (1 / 10)).masses.getD 1 dummyMass).forcesApplied
        = (0, 3) ∧
    ((oneSpringSys.process (1 / 10)).masses.getD 1 dummyMass).velocity
        = (0, 1 / 10) ∧
    ((oneSpringSys.process (1 / 10)).masses.getD 1 dummyMass).position
        = (0, -299 / 100) :=
  ⟨oneSpring_step_mass1_forces, oneSpring_step_mass1_velocity,
    oneSpring_step_mass1_position⟩

/-- C2 counterexample: on the regression scenario, the spring's force is not
added to mass2's accumulated force with its negation applied to mass1: the
second endpoint receives the subtraction. -/
theorem updateForces_assignment_spec_false :
    ¬ (((oneSpringSys.forcesZero.updateForces).masses.getD 1 dummyMass).forcesApplied
          = (oneSpringSys.springs.getD 0 dummySpring).force
              oneSpringSys.forcesZero.masses ∧
       ((oneSpringSys.forcesZero.updateForces).masses.getD 0 dummyMass).forcesApplied
          = -((oneSpringSys.springs.getD 0 dummySpring).force
              oneSpringSys.forcesZero.masses)) := by
  intro h
  have h1 := h.1
  rw [oneSpring_accum_mass1, oneSpring_force_eval, Prod.mk.injEq] at h1
  norm_num at h1

/-- C2 amended: during force accumulation, for every spring with two distinct
in-range endpoints, a single force vector (directed from mass1 toward mass2
with magnitude k times (current length minus rest length)) is added to
MASS1's accumulated force and subtracted from MASS2's accumulated force;
the source evaluates the force expression twice, but both evaluations return
the identical vector since positions do not change during accumulation. -/
theorem updateForces_assignment (ms : List Mass) (s : Spring)
    (h1 : s.mass1 < ms.length) (h2 : s.mass2 < ms.length)
    (hne : s.mass1 ≠ s.mass2) :
    ((applySpring ms s).getD s.mass1 dummyMass).forcesApplied
      = (ms.getD s.mass1 dummyMass).forcesApplied + s.force ms ∧
    ((applySpring ms s).getD s.mass2 dummyMass).forcesApplied
      = (ms.getD s.mass2 dummyMass).forcesApplied - s.force ms := by
  rw [applySpring_eq]
  constructor
  · rw [addForceAt_getD_other s.mass2 s.mass1 _ _ hne]
    exact addForceAt_getD_self s.mass1 _ ms h1
  · rw [addForceAt_getD_self s.mass2 _ _ (by rwa [addForceAt_length]),
      addForceAt_getD_other s.mass1 s.mass2 _ _ (fun hh => hne hh.symm),
      sub_eq_add_neg]

/-- C2 witness: the amended accumulation statement applied to a concrete
two-mass, one-spring state. -/
theorem updateForces_assignment_witness :
    (Spring.mk 1 1 0 1).mass1 < ([dummyMass, dummyMass] : List Mass).length ∧
    (Spring.mk 1 1 0 1).mass2 < ([dummyMass, dummyMass] : List Mass).length ∧
    (Spring.mk 1 1 0 1).mass1 ≠ (Spring.mk 1 1 0 1).mass2 ∧
    (((applySpring [dummyMass, dummyMass] ⟨1, 1, 0, 1⟩).getD
        (Spring.mk 1 1 0 1).mass1 dummyMass).forcesApplied
      = (([dummyMass, dummyMass] : List Mass).getD
          (Spring.mk 1 1 0 1).mass1 dummyMass).forcesApplied
          + (Spring.mk 1 1 0 1).force [dummyMass, dummyMass] ∧
    ((applySpring [dummyMass, dummyMass] ⟨1, 1, 0, 1⟩).getD
        (Spring.mk 1 1 0 1).mass2 dummyMass).forcesApplied
      = (([dummyMass, dummyMass] : List Mass).getD
          (Spring.mk 1 1 0 1).mass2 dummyMass).forcesApplied
          - (Spring.mk 1 1 0 1).force [dummyMass, dummyMass]) :=
  ⟨by norm_num, by norm_num, by norm_num,
    updateForces_assignment [dummyMass, dummyMass] ⟨1, 1, 0, 1⟩
      (by norm_num) (by norm_num) (by norm_num)⟩

/-- C3: for every mass slot, accumulation leaves positions at their
start-of-step values; the composite step skips fixed masses entirely, and
for a non-fixed mass it first adds (dt / mass) times the accumulated force
to the velocity, then adds dt times the already-updated velocity to the
position. -/
theorem process_semi_implicit_euler (sys : System) (dt : ℝ) (i : ℕ) :
    ((sys.forcesZero.updateForces).masses.getD i dummyMass).position
      = (sys.masses.getD i dummyMass).position ∧
    ((sys.masses.getD i dummyMass).isFixed = true →
      ((sys.process dt).masses.getD i dummyMass).velocity
          = (sys.masses.getD i dummyMass).velocity ∧
      ((sys.process dt).masses.getD i dummyMass).position
          = (sys.masses.getD i dummyMass).position) ∧
    ((sys.masses.getD i dummyMass).isFixed = false →
      ((sys.process dt).masses.getD i dummyMass).velocity
          = (sys.masses.getD i dummyMass).velocity
            + (dt / (sys.masses.getD i dummyMass).m)
              • ((sys.forcesZero.updateForces).masses.getD i dummyMass).forcesApplied ∧
      ((sys.process dt).masses.getD i dummyMass).position
          = (sys.masses.getD i dummyMass).position
            + dt • ((sys.process dt).masses.getD i dummyMass).velocity) := by
  obtain ⟨hp, hv, hm, hf⟩ := accum_getD_proj sys i
  refine ⟨hp, fun hfix => ⟨(process_fixed_posvel sys dt i hfix).2,
    (process_fixed_posvel sys dt i hfix).1⟩, fun hfree => ?_⟩
  have hf2 : ((sys.forcesZero.updateForces).masses.getD i dummyMass).isFixed = false :=
    hf.trans hfree
  have hvel : ((sys.process dt).masses.getD i dummyMass).velocity
      = (sys.masses.getD i dummyMass).velocity
        + (dt / (sys.masses.getD i dummyMass).m)
          • ((sys.forcesZero.updateForces).masses.getD i dummyMass).forcesApplied := by
    rw [process_masses_getD, integrateMass_free_velocity dt _ hf2, hv, hm]
  refine ⟨hvel, ?_⟩
  rw [hvel, process_masses_getD, integrateMass_free_position dt _ hf2, hp, hv, hm]

/-- C3 witness: the semi-implicit update applied to the non-fixed mass of the
regression scenario. -/
theorem process_semi_implicit_euler_witness :
    (oneSpringSys.masses.getD 1 dummyMass).isFixed = false ∧
    (((oneSpringSys.process (1 / 10)).masses.getD 1 dummyMass).velocity
        = (oneSpringSys.masses.getD 1 dummyMass).velocity
          + ((1 / 10) / (oneSpringSys.masses.getD 1 dummyMass).m)
            • ((oneSpringSys.forcesZero.updateForces).masses.getD 1
                dummyMass).forcesApplied ∧
     ((oneSpringSys.process (1 / 10)).masses.getD 1 dummyMass).position
        = (oneSpringSys.masses.getD 1 dummyMass).position
          + ((1 : ℝ) / 10) • ((oneSpringSys.process (1 / 10)).masses.getD 1
              dummyMass).velocity) :=
  ⟨rfl, (process_semi_implicit_euler oneSpringSys (1 / 10) 1).2.2 rfl⟩

/- Wiring characterization for the constructor. -/

theorem wireAt_getD_self (i a b : ℕ) (ss : List Spring) (h : i < ss.length) :
    (wireAt i a b ss).getD i dummySpring
      = { ss.getD i dummySpring with mass1 := a, mass2 := b } := by
  induction ss generalizing i with
  | nil => simp at h
  | cons s rest ih =>
    cases i with
    | zero => simp [wireAt]
    | succ i2 => simpa [wireAt] using ih i2 (by simpa using h)

/-- C4 counterexample: constructing a System whose connectivity names mass
index 7 while only one mass exists does not fail; it proceeds to wire the
spring, storing the out-of-range endpoint index; the source performs the
same wiring through unchecked element access, which is undefined behavior. -/
theorem mkSystem_out_of_range_proceeds :
    ((mkSystem [Mass.fixed 0 0] [⟨1, 1, 0, 0⟩] [(0, (0, 7))]).springs.getD 0
        dummySpring).mass2 = 7 ∧
    (mkSystem [Mass.fixed 0 0] [⟨1, 1, 0, 0⟩] [(0, (0, 7))]).masses.length = 1 ∧
    (mkSystem [Mass.fixed 0 0] [⟨1, 1, 0, 0⟩] [(0, (0, 7))]).masses
      = [Mass.fixed 0 0] := by
  refine ⟨?_, rfl, rfl⟩
  simp [mkSystem, wireAt]

/-- C4 amended: the constructor performs no range validation at all: every
connectivity entry naming an existing spring is applied as given, endpoint
indices included, whether or not they are in range of the mass collection;
the masses are taken over unchanged and no error is reported (out-of-range
indices are undefined behavior at later use, not a construction failure). -/
theorem mkSystem_wires_unchecked (ms : List Mass) (ss : List Spring)
    (i a b : ℕ) (h : i < ss.length) :
    (mkSystem ms ss [(i, (a, b))]).masses = ms ∧
    ((mkSystem ms ss [(i, (a, b))]).springs.getD i dummySpring).mass1 = a ∧
    ((mkSystem ms ss [(i, (a, b))]).springs.getD i dummySpring).mass2 = b := by
  have hs : (mkSystem ms ss [(i, (a, b))]).springs = wireAt i a b ss := rfl
  refine ⟨rfl, ?_, ?_⟩ <;> rw [hs, wireAt_getD_self i a b ss h]

/-- C4 witness: unchecked wiring of spring 0 to the out-of-range endpoint
pair (5, 9) over an empty mass collection. -/
theorem mkSystem_wires_unchecked_witness :
    (0 : ℕ) < ([⟨1, 1, 0, 0⟩] : List Spring).length ∧
    ((mkSystem [] [⟨1, 1, 0, 0⟩] [(0, (5, 9))]).masses = ([] : List Mass) ∧
     ((mkSystem [] [⟨1, 1, 0, 0⟩] [(0, (5, 9))]).springs.getD 0
         dummySpring).mass1 = 5 ∧
     ((mkSystem [] [⟨1, 1, 0, 0⟩] [(0, (5, 9))]).springs.getD 0
         dummySpring).mass2 = 9) :=
  ⟨by norm_num, mkSystem_wires_unchecked [] [⟨1, 1, 0, 0⟩] 0 5 9 (by norm_num)⟩

/-- C5: a fixed mass is never written: its position and velocity after any
number of composite steps are exactly its initial ones, and none of the
three constituent operations (force reset, force accumulation, integration)
changes them either. -/
theorem fixed_mass_invariant (sys : System) (dt : ℝ) (n : ℕ) (i : ℕ)
    (h : (sys.masses.getD i dummyMass).isFixed = true) :
    ((sys.stepN dt n).masses.getD i dummyMass).position
      = (sys.masses.getD i dummyMass).position ∧
    ((sys.stepN dt n).masses.getD i dummyMass).velocity
      = (sys.masses.getD i dummyMass).velocity ∧
    (sys.forcesZero.masses.getD i dummyMass).position
      = (sys.masses.getD i dummyMass).position ∧
    (sys.forcesZero.masses.getD i dummyMass).velocity
      = (sys.masses.getD i dummyMass).velocity ∧
    (sys.updateForces.masses.getD i dummyMass).position
      = (sys.masses.getD i dummyMass).position ∧
    (sys.updateForces.masses.getD i dummyMass).velocity
      = (sys.masses.getD i dummyMass).velocity ∧
    ((sys.applyForces dt).masses.getD i dummyMass).position
      = (sys.masses.getD i dummyMass).position ∧
    ((sys.applyForces dt).masses.getD i dummyMass).velocity
      = (sys.masses.getD i dummyMass).velocity := by
  obtain ⟨hsp, hsv⟩ := stepN_fixed_posvel sys dt n i h
  have hz := forcesZero_masses_getD sys i
  have hu := foldl_applySpring_getD_proj sys.springs sys.masses i
  have ha := applyForces_masses_getD sys dt i
  refine ⟨hsp, hsv, by rw [hz], by rw [hz], ?_, ?_, ?_, ?_⟩
  · simpa only [System.updateForces] using hu.1
  · simpa only [System.updateForces] using hu.2.1
  · rw [ha, integrateMass_fixed dt _ h]
  · rw [ha, integrateMass_fixed dt _ h]

/-- C5 witness: the fixed anchor of the regression scenario after two
composite steps. -/
theorem fixed_mass_invariant_witness :
    (oneSpringSys.masses.getD 0 dummyMass).isFixed = true ∧
    ((oneSpringSys.stepN (1 / 10) 2).masses.getD 0 dummyMass).position
      = (oneSpringSys.masses.getD 0 dummyMass).position ∧
    ((oneSpringSys.stepN (1 / 10) 2).masses.getD 0 dummyMass).velocity
      = (oneSpringSys.masses.getD 0 dummyMass).velocity :=
  ⟨rfl, (fixed_mass_invariant oneSpringSys (1 / 10) 2 0 rfl).1,
    (fixed_mass_invariant oneSpringSys (1 / 10) 2 0 rfl).2.1⟩

/-- C10: the composite step is a frame on everything except per-mass
transient force, and velocity and position of non-fixed masses: it keeps the
spring collection (stiffness, rest length, wiring, count) identical, keeps
the number of masses, keeps every mass's scalar mass and fixed flag, and
keeps position and velocity of every fixed mass. -/
theorem process_frame (sys : System) (dt : ℝ) :
    (sys.process dt).springs = sys.springs ∧
    (sys.process dt).masses.length = sys.masses.length ∧
    ∀ j, ((sys.process dt).masses.getD j dummyMass).m
            = (sys.masses.getD j dummyMass).m ∧
         ((sys.process dt).masses.getD j dummyMass).isFixed
            = (sys.masses.getD j dummyMass).isFixed ∧
         ((sys.masses.getD j dummyMass).isFixed = true →
           ((sys.process dt).masses.getD j dummyMass).position
              = (sys.masses.getD j dummyMass).position ∧
           ((sys.process dt).masses.getD j dummyMass).velocity
              = (sys.masses.getD j dummyMass).velocity) :=
  ⟨rfl, process_masses_length sys dt, fun j =>
    ⟨(process_m_isFixed sys dt j).1, (process_m_isFixed sys dt j).2,
      fun h => process_fixed_posvel sys dt j h⟩⟩

/-- C10 witness: frame conditions of one composite step on the regression
scenario, read at the fixed anchor. -/
theorem process_frame_witness :
    (oneSpringSys.masses.getD 0 dummyMass).isFixed = true ∧
    (oneSpringSys.process (1 / 10)).springs = oneSpringSys.springs ∧
    ((oneSpringSys.process (1 / 10)).masses.getD 0 dummyMass).position
      = (oneSpringSys.masses.getD 0 dummyMass).position :=
  ⟨rfl, (process_frame oneSpringSys (1 / 10)).1,
    (((process_frame oneSpringSys (1 / 10)).2.2 0).2.2 rfl).1⟩

/- Transport of per-element facts to list membership. -/

theorem forall_mem_of_getD (P : Mass → Prop) (ms : List Mass)
    (h : ∀ j, j < ms.length → P (ms.getD j dummyMass)) : ∀ m ∈ ms, P m := by
  intro m hm
  obtain ⟨j, hj, he⟩ := List.mem_iff_getElem.mp hm
  rw [← he, ← List.getD_eq_getElem ms dummyMass hj]
  exact h j hj

theorem getD_mem_of_lt (ms : List Mass) (j : ℕ) (hj : j < ms.length) :
    ms.getD j dummyMass ∈ ms := by
  rw [List.getD_eq_getElem ms dummyMass hj]
  exact List.getElem_mem hj

/-- C6: for a System whose masses are all free with (strictly positive) mass,
whose springs are wired inside the mass collection, and whose spring
endpoints never coincide, one composite step preserves the total momentum
exactly: each spring adds one force vector to one endpoint's accumulator and
subtracts the same vector from the other, so the accumulated forces sum to
zero. -/
theorem momentum_conserved (sys : System) (dt : ℝ)
    (hfree : ∀ m ∈ sys.masses, m.isFixed = false)
    (hmass : ∀ m ∈ sys.masses, 0 < m.m)
    (hwired : ∀ s ∈ sys.springs,
      s.mass1 < sys.masses.length ∧ s.mass2 < sys.masses.length)
    (_hsep : ∀ s ∈ sys.springs,
      (sys.masses.getD s.mass1 dummyMass).position
        ≠ (sys.masses.getD s.mass2 dummyMass).position) :
    (sys.process dt).momentum = sys.momentum := by
  have hlen : (sys.forcesZero.updateForces).masses.length = sys.masses.length := by
    rw [updateForces_masses_length, forcesZero_masses_length]
  have hfree2 : ∀ m ∈ (sys.forcesZero.updateForces).masses, m.isFixed = false := by
    refine forall_mem_of_getD _ _ (fun j hj => ?_)
    rw [(accum_getD_proj sys j).2.2.2]
    exact hfree _ (getD_mem_of_lt sys.masses j (by rwa [hlen] at hj))
  have hmass2 : ∀ m ∈ (sys.forcesZero.updateForces).masses, m.m ≠ 0 := by
    refine forall_mem_of_getD _ _ (fun j hj => ?_)
    rw [(accum_getD_proj sys j).2.2.1]
    exact (hmass _ (getD_mem_of_lt sys.masses j (by rwa [hlen] at hj))).ne'
  have hforce0 : totalForce (sys.forcesZero.updateForces).masses = 0 := by
    have hb : ∀ s ∈ sys.forcesZero.springs,
        s.mass1 < sys.forcesZero.masses.length ∧
        s.mass2 < sys.forcesZero.masses.length := by
      intro s hs
      rw [forcesZero_masses_length]
      exact hwired s hs
    simp only [System.updateForces]
    rw [totalForce_foldl_applySpring _ _ hb, totalForce_forcesZero]
  have hmom : totalMomentum (sys.forcesZero.updateForces).masses
      = totalMomentum sys.masses := by
    simp only [System.updateForces]
    rw [totalMomentum_foldl_applySpring, totalMomentum_forcesZero]
  simp only [System.momentum, System.process, System.applyForces]
  rw [totalMomentum_applyForces dt _ hfree2 hmass2, hforce0, hmom, smul_zero,
    add_zero]

/-- C6 witness: momentum conservation over one step of the closed two-mass
system. -/
theorem momentum_conserved_witness :
    (∀ m ∈ twoFreeSys.masses, m.isFixed = false) ∧
    (∀ m ∈ twoFreeSys.masses, 0 < m.m) ∧
    (∀ s ∈ twoFreeSys.springs,
      s.mass1 < twoFreeSys.masses.length ∧ s.mass2 < twoFreeSys.masses.length) ∧
    (∀ s ∈ twoFreeSys.springs,
      (twoFreeSys.masses.getD s.mass1 dummyMass).position
        ≠ (twoFreeSys.masses.getD s.mass2 dummyMass).position) ∧
    (twoFreeSys.process (1 / 10)).momentum = twoFreeSys.momentum := by
  have h1 : ∀ m ∈ twoFreeSys.masses, m.isFixed = false := by
    show ∀ m ∈ [Mass.free 0 0 1, Mass.free 0 (-3) 3], m.isFixed = false
    rw [List.forall_mem_cons, List.forall_mem_cons]
    exact ⟨rfl, rfl, fun x hx => absurd hx (List.not_mem_nil x)⟩
  have h2 : ∀ m ∈ twoFreeSys.masses, 0 < m.m := by
    show ∀ m ∈ [Mass.free 0 0 1, Mass.free 0 (-3) 3], 0 < m.m
    rw [List.forall_mem_cons, List.forall_mem_cons]
    exact ⟨by norm_num [Mass.free], by norm_num [Mass.free],
      fun x hx => absurd hx (List.not_mem_nil x)⟩
  have h3 : ∀ s ∈ twoFreeSys.springs,
      s.mass1 < twoFreeSys.masses.length ∧ s.mass2 < twoFreeSys.masses.length := by
    show ∀ s ∈ [(⟨3, 2, 0, 1⟩ : Spring)], s.mass1 < twoFreeSys.masses.length ∧
      s.mass2 < twoFreeSys.masses.length
    rw [List.forall_mem_cons]
    refine ⟨⟨?_, ?_⟩, fun x hx => absurd hx (List.not_mem_nil x)⟩
    · exact (by norm_num : (0 : ℕ) < 2)
    · exact (by norm_num : (1 : ℕ) < 2)
  have h4 : ∀ s ∈ twoFreeSys.springs,
      (twoFreeSys.masses.getD s.mass1 dummyMass).position
        ≠ (twoFreeSys.masses.getD s.mass2 dummyMass).position := by
    show ∀ s ∈ [(⟨3, 2, 0, 1⟩ : Spring)],
      (twoFreeSys.masses.getD s.mass1 dummyMass).position
        ≠ (twoFreeSys.masses.getD s.mass2 dummyMass).position
    rw [List.forall_mem_cons]
    refine ⟨?_, fun x hx => absurd hx (List.not_mem_nil x)⟩
    show ((0 : ℝ), (0 : ℝ)) ≠ ((0 : ℝ), (-3 : ℝ))
    intro hc
    rw [Prod.mk.injEq] at hc
    norm_num at hc
  exact ⟨h1, h2, h3, h4, momentum_conserved twoFreeSys (1 / 10) h1 h2 h3 h4⟩

/-- C8 counterexample: there is no construction-time validation of the scalar
mass: the free-mass constructor accepts a negative mass and a zero mass,
producing non-fixed masses that the integration step will divide by. -/
theorem mass_free_accepts_nonpositive :
    (Mass.free 1 2 (-5)).isFixed = false ∧ (Mass.free 1 2 (-5)).m = -5 ∧
    (Mass.free 0 0 0).isFixed = false ∧ (Mass.free 0 0 0).m = 0 :=
  ⟨rfl, rfl, rfl, rfl⟩

/-- C8 amended: construction accepts any scalar mass on a free mass, and the
integration step divides by it unguarded: in the anchored one-spring system
whose free mass has scalar mass m, one composite step sets the free mass's
velocity to (dt / m, 0) for every nonzero m, negative values included
(with m = 0 the source's float arithmetic divides by zero and produces
Inf/NaN). -/
theorem integration_unguarded_division (dt m : ℝ) (_h : m ≠ 0) :
    (((anchoredSys m).process dt).masses.getD 1 dummyMass).velocity
      = (dt / m, 0) := by
  simp only [anchoredSys, mkSystem, wireAt, List.foldl_cons, List.foldl_nil,
    System.process, System.forcesZero, System.updateForces, System.applyForces,
    List.map_cons, List.map_nil, applySpring, Spring.force, addForceAt,
    integrateMass, vnorm, Mass.free, Mass.fixed, List.getD_cons_zero,
    List.getD_cons_succ, Prod.mk_sub_mk, Prod.smul_mk, Prod.mk_add_mk,
    Prod.neg_mk, smul_eq_mul]
  norm_num [Real.sqrt_one]

/-- C8 witness: the unguarded division at the negative scalar mass -2. -/
theorem integration_unguarded_division_witness :
    (-2 : ℝ) ≠ 0 ∧
    (((anchoredSys (-2)).process 1).masses.getD 1 dummyMass).velocity
      = ((1 : ℝ) / (-2), 0) :=
  ⟨by norm_num, integration_unguarded_division 1 (-2) (by norm_num)⟩

/-- C9: for every in-range mass index, the render query produces exactly the
one line holding position.x, position.y, velocity.x, velocity.y of the
mass's current state, in that order, space-separated and newline-terminated,
and nothing else (the scalar-to-text conversion of the output stream is
abstracted as a parameter). -/
theorem displayMass_format (toText : ℝ → String) (sys : System) (n : ℕ)
    (h : n < sys.masses.length) :
    sys.displayMass toText n
      = toText (sys.masses.get ⟨n, h⟩).position.1 ++ " "
          ++ toText (sys.masses.get ⟨n, h⟩).position.2 ++ " "
          ++ toText (sys.masses.get ⟨n, h⟩).velocity.1 ++ " "
          ++ toText (sys.masses.get ⟨n, h⟩).velocity.2 ++ "\n" := by
  simp only [System.displayMass, Mass.render]
  rw [List.getD_eq_getElem sys.masses dummyMass h]
  simp [List.get_eq_getElem]

/-- C9 witness: the render query on the anchor of the regression scenario,
with a constant scalar-to-text conversion. -/
theorem displayMass_format_witness :
    0 < oneSpringSys.masses.length ∧
    oneSpringSys.displayMass (fun _ => "v") 0
      = "v" ++ " " ++ "v" ++ " " ++ "v" ++ " " ++ "v" ++ "\n" :=
  ⟨by norm_num [oneSpringSys, mkSystem],
    displayMass_format (fun _ => "v") oneSpringSys 0
      (by norm_num [oneSpringSys, mkSystem])⟩

end
